import Mathlib

/-!
Verification development for the pde_nn Poisson-solver core.

The definitions below are a shallow embedding of the inference-and-refinement
pipeline of src/poissonsolver/network.py (classes PoissonNetwork and
PoissonNetworkOpti) and of the metrics-reporting script
src/poissonsolver/eval_dataset.py.  Numeric arrays are embedded as functions
into the rationals; external collaborators (the torch model, the torch
interpolation routine, the metric functions and the metric tracker) are
parameters of the embedded functions, constrained only by their documented
shape contracts.
-/

namespace PoissonNet

/-- A physical 2D field of shape (ny, nx), indexed row first, as the numpy
arrays handled by PoissonNetwork.solve. -/
abbrev PField (ny nx : ℕ) : Type := Fin ny → Fin nx → ℚ

/-- An architecture argument dictionary, as handled at network.py lines 53-59:
a finite map from keyword names to values, embedded as a partial function. -/
abbrev Args : Type := String → Option ℤ

/-- Python dict union of two dictionaries where entries of the second
dictionary win on common keys.  This is the merge expression built at
network.py line 58 with the double-splat of `a` first and `b` second. -/
def dictMerge (a b : Args) : Args := fun key =>
  match b key with
  | some v => some v
  | none => a key

/-- Architecture argument resolution, network.py lines 56-59: when the
call site supplies an args dictionary, it is merged with the database
entry args by `dictMerge` with the call-site dictionary first and the
database dictionary second; otherwise the database entry args are kept. -/
def resolveArchArgs (callsite_args : Option Args) (db_args : Args) : Args :=
  match callsite_args with
  | some cargs => dictMerge cargs db_args
  | none => db_args

/-- The boundary-value map handed to the Dirichlet enforcement, as built at
network.py line 119: one value array per side of the rectangular grid. -/
structure BoundaryValues (ny nx : ℕ) where
  left : Fin ny → ℚ
  right : Fin ny → ℚ
  bottom : Fin nx → ℚ
  top : Fin nx → ℚ

/-- Modelled from the spec: the function `impose_dirichlet` of the linsystem
module is imported at network.py line 30 but its source is not among the
provided files.  Per the spec (section 4.1) it takes a field and a
boundary-value map and overwrites the field boundary entries with the
supplied values, leaving interior entries unchanged. -/
def impose_dirichlet {ny nx : ℕ} (f : PField ny nx) (bc : BoundaryValues ny nx) :
    PField ny nx :=
  fun i j =>
    if (j : ℕ) = 0 then bc.left i
    else if (j : ℕ) = nx - 1 then bc.right i
    else if (i : ℕ) = 0 then bc.bottom j
    else if (i : ℕ) = ny - 1 then bc.top j
    else f i j

/-- The all-sides homogeneous Dirichlet boundary values built at
network.py lines 113-119 (zeros_x, zeros_y on every side). -/
def zeroBC (ny nx : ℕ) : BoundaryValues ny nx :=
  { left := fun _ => 0
    right := fun _ => 0
    bottom := fun _ => 0
    top := fun _ => 0 }

/-- Row-major flattening of a 2D field, numpy reshape(-1). -/
def flatten {ny nx : ℕ} (f : PField ny nx) : Fin (ny * nx) → ℚ := fun k =>
  if h : 0 < nx then
    f ⟨(k : ℕ) / nx, (Nat.div_lt_iff_lt_mul h).mpr k.isLt⟩
      ⟨(k : ℕ) % nx, Nat.mod_lt _ h⟩
  else 0

/-- Row-major reshaping of a flat vector back to shape (ny, nx),
numpy reshape(nny, nnx). -/
def reshape {ny nx : ℕ} (v : Fin (ny * nx) → ℚ) : PField ny nx := fun i j =>
  v ⟨(i : ℕ) * nx + (j : ℕ), by
    have h1 : (i : ℕ) + 1 ≤ ny := i.isLt
    calc (i : ℕ) * nx + (j : ℕ) < (i : ℕ) * nx + nx := Nat.add_lt_add_left j.isLt _
      _ = ((i : ℕ) + 1) * nx := by ring
      _ ≤ ny * nx := Nat.mul_le_mul_right nx h1⟩

/-- scipy.sparse.tril with the default diagonal offset: the lower triangle of
a matrix including its diagonal. -/
def tril {n : ℕ} (M : Matrix (Fin n) (Fin n) ℚ) : Matrix (Fin n) (Fin n) ℚ :=
  Matrix.of fun i j => if (j : ℕ) ≤ (i : ℕ) then M i j else 0

/-- scipy.sparse.linalg.inv modelled over the rationals: the inverse of the
determinant times the adjugate, which is the matrix inverse whenever the
determinant is nonzero. -/
def matInv {n : ℕ} (M : Matrix (Fin n) (Fin n) ℚ) : Matrix (Fin n) (Fin n) ℚ :=
  (M.det)⁻¹ • M.adjugate

/-- The diagonal part P of the system matrix, network.py lines 128-129:
a zero matrix whose diagonal is set to the diagonal of mat. -/
def diagOf {n : ℕ} (M : Matrix (Fin n) (Fin n) ℚ) : Matrix (Fin n) (Fin n) ℚ :=
  Matrix.diagonal fun i => M i i

/-- The guarded reciprocal diagonal Pinv, network.py lines 130-131:
entry-wise reciprocal of the diagonal where it is nonzero, zero elsewhere
(the np.where guard). -/
def diagRecip {n : ℕ} (M : Matrix (Fin n) (Fin n) ℚ) : Matrix (Fin n) (Fin n) ℚ :=
  Matrix.diagonal fun i => if M i i ≠ 0 then (M i i)⁻¹ else 0

/-- Gauss-Seidel splitting precomputation, network.py lines 122-126:
lstar is the lower triangle of mat including the diagonal, triu the
remainder, and the returned pair is (lstar_inv, lstar_invU). -/
def gaussSetup {n : ℕ} (mat : Matrix (Fin n) (Fin n) ℚ) :
    Matrix (Fin n) (Fin n) ℚ × Matrix (Fin n) (Fin n) ℚ :=
  let lstar := tril mat
  let triu := mat - lstar
  let lstar_inv := matInv lstar
  let lstar_invU := lstar_inv * triu
  (lstar_inv, lstar_invU)

/-- Jacobi splitting precomputation, network.py lines 127-133:
P is the diagonal of mat, Pinv its guarded reciprocal, N = P - mat, and the
returned pair is (Pinv, PinvN). -/
def jacobiSetup {n : ℕ} (mat : Matrix (Fin n) (Fin n) ℚ) :
    Matrix (Fin n) (Fin n) ℚ × Matrix (Fin n) (Fin n) ℚ :=
  let P := diagOf mat
  let Pinv := diagRecip mat
  let N := P - mat
  let PinvN := Pinv * N
  (Pinv, PinvN)

/-- One Gauss-Seidel correction sweep, network.py lines 207-211: the flattened
potential is replaced by minus lstar_inv times the flattened rhs minus
lstar_invU times the flattened potential, reshaped back to (nny, nnx). -/
def refineStepGS {ny nx : ℕ}
    (lstar_inv lstar_invU : Matrix (Fin (ny * nx)) (Fin (ny * nx)) ℚ)
    (rhs pot : PField ny nx) : PField ny nx :=
  reshape fun k => - lstar_inv.mulVec (flatten rhs) k - lstar_invU.mulVec (flatten pot) k

/-- One Jacobi correction sweep, network.py lines 213-216: the flattened
potential is replaced by PinvN times the flattened potential minus Pinv times
the flattened rhs, reshaped back to (nny, nnx). -/
def refineStepJac {ny nx : ℕ}
    (Pinv PinvN : Matrix (Fin (ny * nx)) (Fin (ny * nx)) ℚ)
    (rhs pot : PField ny nx) : PField ny nx :=
  reshape fun k => PinvN.mulVec (flatten pot) k - Pinv.mulVec (flatten rhs) k

/-- The refinement for-loop of solve, network.py line 206: apply the sweep
once per index of range(refine_its).  The second component counts the sweeps
actually applied. -/
def refineLoop {ny nx : ℕ} (step : PField ny nx → PField ny nx) :
    ℕ → PField ny nx → PField ny nx × ℕ
  | 0, pot => (pot, 0)
  | its + 1, pot =>
    let r := refineLoop step its (step pot)
    (r.1, r.2 + 1)

/-- The refinement method dispatched on at network.py lines 122-127 and
206-217 (any method other than gauss_seidel takes the jacobi branch of the
sweep in solve; only these two are set up at initialization). -/
inductive RefineMethod where
  | gauss_seidel
  | jacobi

/-- The configuration state a PoissonNetwork instance carries after
initialization, for a grid of shape (nny, nnx): the training resolution
nnx_nn (line 63), the model input resolution, the interpolation kind
(lines 101-104, default bilinear), the normalization constants (lines
75-79), the optional refinement request (lines 108-111) and the system
matrix built for the grid (line 118). -/
structure EngineCfg (nny nnx : ℕ) where
  nnx_nn : ℕ
  input_res : ℕ × ℕ
  interp_kind : String
  ratio : ℚ
  scaling_factor : ℚ
  refine : Option (RefineMethod × ℕ)
  mat : Matrix (Fin (nny * nnx)) (Fin (nny * nnx)) ℚ

/-- res_scale, network.py line 80: the squared training resolution divided by
the squared configured resolution, under Python true division. -/
def res_scale {nny nnx : ℕ} (cfg : EngineCfg nny nnx) : ℚ :=
  (cfg.nnx_nn : ℚ) ^ 2 / (nnx : ℚ) ^ 2

/-- A 2D tensor whose shape is part of the value, standing for the trailing
two dimensions of the torch tensors flowing through solve. -/
structure DynField where
  ny : ℕ
  nx : ℕ
  val : Fin ny → Fin nx → ℚ

/-- A record of one call to torch.nn.functional.interpolate inside solve:
the interpolation mode, the align_corners flag and the target size. -/
structure ResizeCall where
  kind : String
  align_corners : Bool
  target : ℕ × ℕ
deriving DecidableEq

/-- The value contract of torch.nn.functional.interpolate, kept abstract:
given mode, align_corners flag, target size and source tensor it yields the
values of the resampled tensor.  Only its shape behavior is fixed by
`interpolateD`. -/
abbrev ResizeFn : Type := String → Bool → (ℕ × ℕ) → DynField → ℕ → ℕ → ℚ

/-- The trained model, kept abstract: for each input shape it maps a tensor
to a same-shaped tensor (the network outputs a potential field on the grid
of its input). -/
abbrev ModelFn : Type := (h w : ℕ) → (Fin h → Fin w → ℚ) → Fin h → Fin w → ℚ

/-- torch.nn.functional.interpolate as used at network.py lines 175-177 and
184-186: the result has exactly the requested target shape and
align_corners is True; the values come from the abstract resize function. -/
def interpolateD (interp : ResizeFn) (kind : String) (target : ℕ × ℕ)
    (d : DynField) : DynField :=
  { ny := target.1
    nx := target.2
    val := fun i j => interp kind true target d (i : ℕ) (j : ℕ) }

/-- Network.py lines 156-186 of solve: normalize the input by
ratio times scaling_factor, resample up to the model input resolution when
it differs from the rhs shape, apply the model, and resample back to the rhs
shape in that case.  This is the raw model output before the final rescale
of line 196. -/
def rawNetOutput {nny nnx : ℕ} (cfg : EngineCfg nny nnx) (interp : ResizeFn)
    (model : ModelFn) (rhs : PField nny nnx) : DynField :=
  let d0 : DynField :=
    { ny := nny, nx := nnx
      val := fun i j => rhs i j * cfg.ratio * cfg.scaling_factor }
  let d1 : DynField :=
    if cfg.input_res ≠ (nny, nnx) then
      interpolateD interp cfg.interp_kind cfg.input_res d0
    else d0
  let d2 : DynField := { ny := d1.ny, nx := d1.nx, val := model d1.ny d1.nx d1.val }
  if cfg.input_res ≠ (nny, nnx) then
    interpolateD interp cfg.interp_kind (nny, nnx) d2
  else d2

/-- The interpolate calls issued by solve, in order: none when the model
input resolution equals the rhs shape, otherwise one call up to the model
input resolution followed by one call back to the rhs shape, both with the
configured kind and align_corners True. -/
def networkCalls {nny nnx : ℕ} (cfg : EngineCfg nny nnx) : List ResizeCall :=
  (if cfg.input_res ≠ (nny, nnx) then
    [{ kind := cfg.interp_kind, align_corners := true, target := cfg.input_res }]
  else []) ++
  (if cfg.input_res ≠ (nny, nnx) then
    [{ kind := cfg.interp_kind, align_corners := true, target := (nny, nnx) }]
  else [])

/-- The network stage of solve: the potential of line 196, obtained from the
raw model output by multiplying every entry by res_scale / scaling_factor,
paired with the resample-call trace. -/
def networkStage {nny nnx : ℕ} (cfg : EngineCfg nny nnx) (interp : ResizeFn)
    (model : ModelFn) (rhs : PField nny nnx) : DynField × List ResizeCall :=
  let d3 := rawNetOutput cfg interp model rhs
  ({ ny := d3.ny, nx := d3.nx
     val := fun i j => res_scale cfg / cfg.scaling_factor * d3.val i j },
   networkCalls cfg)

/-- The network-stage potential viewed at the grid shape (nny, nnx); the
embedded shape proofs record that the dynamic shape always equals the rhs
shape. -/
def netPotential {nny nnx : ℕ} (cfg : EngineCfg nny nnx) (interp : ResizeFn)
    (model : ModelFn) (rhs : PField nny nnx) : PField nny nnx :=
  fun i j =>
    (networkStage cfg interp model rhs).1.val
      (Fin.cast (by
        by_cases h : cfg.input_res = (nny, nnx) <;>
          simp [networkStage, rawNetOutput, interpolateD, h]) i)
      (Fin.cast (by
        by_cases h : cfg.input_res = (nny, nnx) <;>
          simp [networkStage, rawNetOutput, interpolateD, h]) j)

/-- The state of a PoissonNetwork after initialization: its configuration
and the splitting operators precomputed once at lines 122-133 when
refinement is requested. -/
structure Engine (nny nnx : ℕ) where
  cfg : EngineCfg nny nnx
  ops : Option (Matrix (Fin (nny * nnx)) (Fin (nny * nnx)) ℚ ×
                Matrix (Fin (nny * nnx)) (Fin (nny * nnx)) ℚ)

/-- PoissonNetwork initialization of the refinement machinery, network.py
lines 108-136: when refinement is requested the splitting operators for the
requested method are computed once from the system matrix. -/
def initEngine {nny nnx : ℕ} (cfg : EngineCfg nny nnx) : Engine nny nnx :=
  { cfg := cfg
    ops :=
      match cfg.refine with
      | none => none
      | some (RefineMethod.gauss_seidel, _) => some (gaussSetup cfg.mat)
      | some (RefineMethod.jacobi, _) => some (jacobiSetup cfg.mat) }

/-- The refinement stage of solve, network.py lines 204-217: when refinement
is configured, the all-zero Dirichlet values are imposed on the rhs field in
place, then range(refine_its) sweeps of the configured method are applied to
the potential using the operators precomputed at initialization.  Returns
the final potential, the rhs field as the caller observes it afterwards,
and the number of sweeps applied. -/
def refineStage {nny nnx : ℕ} (e : Engine nny nnx) (potential rhs : PField nny nnx) :
    PField nny nnx × PField nny nnx × ℕ :=
  match e.cfg.refine, e.ops with
  | some (method, refine_its), some ops =>
    let rhs2 := impose_dirichlet rhs (zeroBC nny nnx)
    let step : PField nny nnx → PField nny nnx :=
      match method with
      | RefineMethod.gauss_seidel => fun pot => refineStepGS ops.1 ops.2 rhs2 pot
      | RefineMethod.jacobi => fun pot => refineStepJac ops.1 ops.2 rhs2 pot
    let r := refineLoop step refine_its potential
    (r.1, rhs2, r.2)
  | _, _ => (potential, rhs, 0)

/-- PoissonNetwork.solve, network.py lines 149-217 (benchmark timing and
logging omitted): the network stage followed by the optional iterative
refinement.  Returns the potential, the rhs field as the caller observes it
after the call, and the number of refinement sweeps applied. -/
def solve {nny nnx : ℕ} (e : Engine nny nnx) (interp : ResizeFn) (model : ModelFn)
    (rhs : PField nny nnx) : PField nny nnx × PField nny nnx × ℕ :=
  refineStage e (netPotential e.cfg interp model rhs) rhs

/-- The output rescale shared by solve line 196 and the evaluation loops,
network.py lines 269 and 365: res_scale / scaling_factor times the model
output. -/
def evaluateOutput {h w : ℕ} (res_scale scaling_factor : ℚ)
    (model : PField h w → PField h w) (data : PField h w) : PField h w :=
  fun i j => res_scale / scaling_factor * model data i j

/-- One batch yielded by the data loader: data, target, data_norm,
target_norm. -/
abbrev Batch (h w : ℕ) : Type := PField h w × PField h w × PField h w × PField h w

/-- The loop body of PoissonNetwork.evaluate, network.py lines 264-293
(figure rendering omitted; it does not touch the tracker): rescale the model
output by res_scale / scaling_factor, divide the target by scaling_factor,
fold every configured metric into the tracker, and when save_data is set
overwrite the saved arrays with the current batch. -/
def evaluate_body {h w : ℕ} {T C : Type} (upd : T → String → ℚ → T)
    (res_scale scaling_factor : ℚ) (model : PField h w → PField h w) (cfg_dl : C)
    (metric_ftns : List (String × (PField h w → PField h w → C → ℚ)))
    (save_data : Bool)
    (acc : T × Option (PField h w × PField h w)) (b : Batch h w) :
    T × Option (PField h w × PField h w) :=
  let data := b.1
  let target0 := b.2.1
  let output := evaluateOutput res_scale scaling_factor model data
  let target : PField h w := fun i j => target0 i j / scaling_factor
  let t2 := metric_ftns.foldl (fun t m => upd t m.1 (m.2 output target cfg_dl)) acc.1
  (t2, if save_data then some (output, target) else acc.2)

/-- The batch loop of PoissonNetwork.evaluate over the whole data loader,
starting from the reset tracker; the second component is the content of the
fixed-named saved arrays at the end (those of the last batch). -/
def evaluate_metrics {h w : ℕ} {T C : Type} (upd : T → String → ℚ → T)
    (res_scale scaling_factor : ℚ) (model : PField h w → PField h w) (cfg_dl : C)
    (metric_ftns : List (String × (PField h w → PField h w → C → ℚ)))
    (save_data : Bool) (batches : List (Batch h w)) (tracker : T) :
    T × Option (PField h w × PField h w) :=
  batches.foldl
    (evaluate_body upd res_scale scaling_factor model cfg_dl metric_ftns save_data)
    (tracker, none)

/-- The loop body of PoissonNetworkOpti.evaluateopti, network.py lines
360-370: rescale the model output by res_scale / scaling_factor, divide the
target by scaling_factor, and fold every configured metric into the
tracker. -/
def evaluateopti_body {h w : ℕ} {T C : Type} (upd : T → String → ℚ → T)
    (res_scale scaling_factor : ℚ) (model : PField h w → PField h w) (cfg_dl : C)
    (metric_ftns : List (String × (PField h w → PField h w → C → ℚ)))
    (t : T) (b : Batch h w) : T :=
  let data := b.1
  let target0 := b.2.1
  let output := evaluateOutput res_scale scaling_factor model data
  let target : PField h w := fun i j => target0 i j / scaling_factor
  metric_ftns.foldl (fun t2 m => upd t2 m.1 (m.2 output target cfg_dl)) t

/-- The batch loop of PoissonNetworkOpti.evaluateopti over the whole data
loader, starting from the reset tracker. -/
def evaluateopti_metrics {h w : ℕ} {T C : Type} (upd : T → String → ℚ → T)
    (res_scale scaling_factor : ℚ) (model : PField h w → PField h w) (cfg_dl : C)
    (metric_ftns : List (String × (PField h w → PField h w → C → ℚ)))
    (batches : List (Batch h w)) (tracker : T) : T :=
  batches.foldl
    (evaluateopti_body upd res_scale scaling_factor model cfg_dl metric_ftns)
    tracker

/-- The identity columns of the metrics table of eval_dataset.py lines 48-49
that do not vary across rows of one run. -/
structure EvalIdentity where
  nn_name : String
  nn_type : String
  rf_global : ℤ
  nbranches : ℤ
  depth : ℤ
  ks : ℤ
  ds_name : String
  ds_type : String
  test_res : ℤ
  train_res : ℤ

/-- One row of the metrics table, eval_dataset.py lines 48-49 and 73-86. -/
structure MetricRow where
  nn_name : String
  nn_type : String
  rf_global : ℤ
  nbranches : ℤ
  depth : ℤ
  ks : ℤ
  ds_name : String
  ds_type : String
  test_res : ℤ
  train_res : ℤ
  metric_name : String
  value : ℚ

/-- The row dictionary built for one metric name at eval_dataset.py lines
73-86: the identity columns, the metric name and its averaged value. -/
def mkRow (ident : EvalIdentity) (metric_name : String) (value : ℚ) : MetricRow :=
  { nn_name := ident.nn_name
    nn_type := ident.nn_type
    rf_global := ident.rf_global
    nbranches := ident.nbranches
    depth := ident.depth
    ks := ident.ks
    ds_name := ident.ds_name
    ds_type := ident.ds_type
    test_res := ident.test_res
    train_res := ident.train_res
    metric_name := metric_name
    value := value }

/-- The row-building loop of eval_dataset.py lines 71-89: one row per
requested metric name, in order, each carrying that metric's averaged
value. -/
def mainRows (ident : EvalIdentity) (average : String → ℚ)
    (metrics : List String) : List MetricRow :=
  metrics.map fun metric_name => mkRow ident metric_name (average metric_name)

/-- An HDF5 store: a map from file path to the stored key and table. -/
abbrev HStore : Type := String → Option (String × List MetricRow)

/-- DataFrame.to_hdf with key df and mode w, eval_dataset.py line 93: the
file at the given path is replaced by a store holding the table under the
fixed key df; other paths are untouched. -/
def to_hdf (store : HStore) (path : String) (df : List MetricRow) : HStore :=
  fun p => if p = path then some ("df", df) else store p

/-- The h5 file name built at eval_dataset.py line 92. -/
def h5filename (filename : String) : String := filename ++ ".h5"

/-- The persistence step of eval_dataset.py lines 71-93: build the rows and
write them to filename.h5 under key df in overwrite mode. -/
def mainPersist (store : HStore) (filename : String) (ident : EvalIdentity)
    (average : String → ℚ) (metrics : List String) : HStore :=
  to_hdf store (h5filename filename) (mainRows ident average metrics)

/-- A concrete call-site args dictionary binding the key width to 1. -/
def callsiteArgsEx : Args := fun key => if key = "width" then some 1 else none

/-- A concrete database-entry args dictionary binding the key width to 2. -/
def dbArgsEx : Args := fun key => if key = "width" then some 2 else none

/-- A concrete resize value function for witnesses. -/
def interpEx : ResizeFn := fun _ _ _ _ _ _ => 0

/-- A concrete model for witnesses: the identity on every shape. -/
def modelEx : ModelFn := fun _ _ f => f

/-- A concrete engine configuration on a 1 by 1 grid whose system matrix is
the 1 by 1 matrix with entry 2, so its lower triangle has nonzero
determinant. -/
def cfgC3 : EngineCfg 1 1 :=
  { nnx_nn := 1
    input_res := (1, 1)
    interp_kind := "bilinear"
    ratio := 1
    scaling_factor := 1
    refine := none
    mat := Matrix.of fun _ _ => 2 }

/-- A concrete field on the 1 by 1 grid. -/
def fieldC3 : PField 1 1 := fun _ _ => 3

/-- A concrete 2 by 2 system matrix whose first diagonal entry is zero. -/
def matC5 : Matrix (Fin 2) (Fin 2) ℚ :=
  Matrix.of fun i j => if (i : ℕ) = 0 ∧ (j : ℕ) = 0 then 0 else 1

/-- A concrete engine configuration on a 2 by 2 grid whose model input
resolution differs from the grid shape. -/
def cfgC6 : EngineCfg 2 2 :=
  { nnx_nn := 4
    input_res := (4, 4)
    interp_kind := "bilinear"
    ratio := 1
    scaling_factor := 1
    refine := none
    mat := 0 }

/-- A concrete field on the 2 by 2 grid. -/
def fieldC6 : PField 2 2 := fun _ _ => 1

/-- A concrete engine configuration on a 3 by 3 grid. -/
def cfgC9 : EngineCfg 3 3 :=
  { nnx_nn := 3
    input_res := (3, 3)
    interp_kind := "bilinear"
    ratio := 1
    scaling_factor := 1
    refine := none
    mat := 0 }

/-- A concrete rhs field on the 3 by 3 grid with value 5 everywhere. -/
def rhsC9 : PField 3 3 := fun _ _ => 5

/-!
Theorems.  One main theorem per claim C1 to C10 of the specification, with
counterexamples and concrete witnesses where needed, after two reusable
lemmas about the loops.
-/

/-- The refinement loop applies its step exactly as many times as its
iteration budget, and reports that count. -/
theorem refineLoop_count {ny nx : ℕ} (step : PField ny nx → PField ny nx) :
    ∀ (its : ℕ) (pot : PField ny nx), (refineLoop step its pot).2 = its := by
  intro its
  induction its with
  | zero => intro pot; rfl
  | succ k ih =>
    intro pot
    simp only [refineLoop]
    rw [ih]

/-- The tracker component of the evaluate fold equals the evaluateopti fold
started from the same tracker, whatever the saved-array component. -/
theorem evaluateFold_fst {h w : ℕ} {T C : Type} (upd : T → String → ℚ → T)
    (res_scale scaling_factor : ℚ) (model : PField h w → PField h w) (cfg_dl : C)
    (metric_ftns : List (String × (PField h w → PField h w → C → ℚ)))
    (save_data : Bool) :
    ∀ (batches : List (Batch h w)) (acc : T × Option (PField h w × PField h w)),
      (batches.foldl
          (evaluate_body upd res_scale scaling_factor model cfg_dl metric_ftns save_data)
          acc).1
        = batches.foldl
            (evaluateopti_body upd res_scale scaling_factor model cfg_dl metric_ftns)
            acc.1 := by
  intro batches
  induction batches with
  | nil => intro acc; rfl
  | cons b bs ih =>
    intro acc
    simp only [List.foldl_cons]
    exact ih _

/-- Counterexample to claim C1: with the call-site args binding width to 1
and the database entry binding width to 2, the merge of network.py line 58
uses the database value 2, not the call-site value 1. -/
theorem spec_C1_cex :
    callsiteArgsEx "width" = some 1 ∧ dbArgsEx "width" = some 2 ∧
    resolveArchArgs (some callsiteArgsEx) dbArgsEx "width" = some 2 ∧
    resolveArchArgs (some callsiteArgsEx) dbArgsEx "width" ≠ some 1 := by
  refine ⟨rfl, rfl, rfl, ?_⟩
  decide

/-- Claim C1 as amended: when the architecture is resolved by name from the
database and the call site also supplies args, the database entry args take
precedence on keys present in both dictionaries; call-site values are used
only for keys absent from the database entry args. -/
theorem spec_C1_amended :
    ∀ (cargs db_args : Args) (key : String),
      (∀ v : ℤ, db_args key = some v →
        resolveArchArgs (some cargs) db_args key = some v) ∧
      (db_args key = none →
        resolveArchArgs (some cargs) db_args key = cargs key) := by
  intro cargs db_args key
  constructor
  · intro v hv
    simp [resolveArchArgs, dictMerge, hv]
  · intro hv
    simp [resolveArchArgs, dictMerge, hv]

/-- Witness for the amended claim C1 at a concrete input. -/
theorem spec_C1_amended_witness :
    dbArgsEx "width" = some 2 ∧
    resolveArchArgs (some callsiteArgsEx) dbArgsEx "width" = some 2 :=
  ⟨by decide, (spec_C1_amended callsiteArgsEx dbArgsEx "width").1 2 (by decide)⟩

/-- Claim C7: the Dirichlet enforcement operation is idempotent: applying it
twice with the same boundary values yields the same field as applying it
once. -/
theorem spec_C7 :
    ∀ (ny nx : ℕ) (f : PField ny nx) (bc : BoundaryValues ny nx),
      impose_dirichlet (impose_dirichlet f bc) bc = impose_dirichlet f bc := by
  intro ny nx f bc
  funext i j
  simp only [impose_dirichlet]
  split_ifs <;> rfl

/-- Claim C8: for a requested list of n metric names the evaluation script
builds exactly n rows, the k-th row being the identity columns together with
the k-th metric name and its averaged value, and persists the table to
filename.h5 under the fixed key df in overwrite mode, so a repeated run
against the same path replaces prior content. -/
theorem spec_C8 :
    ∀ (ident ident2 : EvalIdentity) (average average2 : String → ℚ)
      (metrics metrics2 : List String) (store : HStore) (filename : String)
      (k : ℕ) (m : String) (v : ℚ),
      (mainRows ident average metrics).length = metrics.length
      ∧ (mainRows ident average metrics)[k]?
          = (metrics[k]?).map (fun name => mkRow ident name (average name))
      ∧ (mkRow ident m v).metric_name = m
      ∧ (mkRow ident m v).value = v
      ∧ (mkRow ident m v).nn_name = ident.nn_name
      ∧ (mkRow ident m v).ds_name = ident.ds_name
      ∧ mainPersist (mainPersist store filename ident average metrics)
          filename ident2 average2 metrics2 (h5filename filename)
          = some ("df", mainRows ident2 average2 metrics2) := by
  intro ident ident2 average average2 metrics metrics2 store filename k m v
  refine ⟨?_, ?_, rfl, rfl, rfl, rfl, ?_⟩
  · simp [mainRows]
  · simp [mainRows]
  · simp [mainPersist, to_hdf]

/-- Claim C10: given the same tracker-update function, rescale constants,
model, configuration, metric functions and batch sequence, the batch loops
of PoissonNetwork.evaluate and PoissonNetworkOpti.evaluateopti leave the
metrics accumulator in the same state. -/
theorem spec_C10 :
    ∀ (h w : ℕ) (T C : Type) (upd : T → String → ℚ → T)
      (res_scale scaling_factor : ℚ) (model : PField h w → PField h w) (cfg_dl : C)
      (metric_ftns : List (String × (PField h w → PField h w → C → ℚ)))
      (save_data : Bool) (batches : List (Batch h w)) (tracker : T),
      (evaluate_metrics upd res_scale scaling_factor model cfg_dl metric_ftns
          save_data batches tracker).1
        = evaluateopti_metrics upd res_scale scaling_factor model cfg_dl metric_ftns
            batches tracker := by
  intro h w T C upd res_scale scaling_factor model cfg_dl metric_ftns save_data
    batches tracker
  exact evaluateFold_fst upd res_scale scaling_factor model cfg_dl metric_ftns
    save_data batches (tracker, none)

/-- Claim C2: for every configured refinement method and every iteration
count, solve applies exactly refine_its correction sweeps, and with a zero
iteration count the refinement stage returns the rescaled network potential
unchanged. -/
theorem spec_C2 :
    ∀ (nny nnx : ℕ) (cfg : EngineCfg nny nnx) (m : RefineMethod) (its : ℕ)
      (interp : ResizeFn) (model : ModelFn) (rhs : PField nny nnx),
      (solve (initEngine { cfg with refine := some (m, its) }) interp model rhs).2.2 = its
      ∧ (solve (initEngine { cfg with refine := some (m, 0) }) interp model rhs).1
          = netPotential { cfg with refine := some (m, 0) } interp model rhs := by
  intro nny nnx cfg m its interp model rhs
  cases m <;>
    exact ⟨by simp [solve, refineStage, initEngine, refineLoop_count],
           by simp [solve, refineStage, initEngine, refineLoop]⟩

/-- Claim C3: the splitting operators are precomputed once at engine
initialization from the system matrix; the Gauss-Seidel operators are the
inverse of the lower triangle including the diagonal and its product with
the strict upper remainder, the Jacobi operators are the guarded reciprocal
diagonal and its product with P minus M; each sweep applies the stated
affine update to the flattened potential and reshapes it back; and the
precomputed lstar_inv really is the two-sided inverse of the lower triangle
whenever its determinant is nonzero. -/
theorem spec_C3 :
    ∀ (nny nnx : ℕ) (cfg : EngineCfg nny nnx) (its : ℕ) (rhs pot : PField nny nnx),
      (initEngine { cfg with refine := some (RefineMethod.gauss_seidel, its) }).ops
          = some (gaussSetup cfg.mat)
      ∧ (initEngine { cfg with refine := some (RefineMethod.jacobi, its) }).ops
          = some (jacobiSetup cfg.mat)
      ∧ (gaussSetup cfg.mat).1 = matInv (tril cfg.mat)
      ∧ (gaussSetup cfg.mat).2 = matInv (tril cfg.mat) * (cfg.mat - tril cfg.mat)
      ∧ refineStepGS (gaussSetup cfg.mat).1 (gaussSetup cfg.mat).2 rhs pot
          = reshape (fun k =>
              - (matInv (tril cfg.mat)).mulVec (flatten rhs) k
              - (matInv (tril cfg.mat) * (cfg.mat - tril cfg.mat)).mulVec (flatten pot) k)
      ∧ (jacobiSetup cfg.mat).1 = diagRecip cfg.mat
      ∧ (jacobiSetup cfg.mat).2 = diagRecip cfg.mat * (diagOf cfg.mat - cfg.mat)
      ∧ refineStepJac (jacobiSetup cfg.mat).1 (jacobiSetup cfg.mat).2 rhs pot
          = reshape (fun k =>
              (diagRecip cfg.mat * (diagOf cfg.mat - cfg.mat)).mulVec (flatten pot) k
              - (diagRecip cfg.mat).mulVec (flatten rhs) k)
      ∧ ((tril cfg.mat).det ≠ 0 →
          matInv (tril cfg.mat) * tril cfg.mat = 1
          ∧ tril cfg.mat * matInv (tril cfg.mat) = 1) := by
  intro nny nnx cfg its rhs pot
  refine ⟨rfl, rfl, rfl, rfl, rfl, rfl, rfl, rfl, ?_⟩
  intro hdet
  constructor
  · simp only [matInv]
    rw [Matrix.smul_mul, Matrix.adjugate_mul, smul_smul, inv_mul_cancel₀ hdet, one_smul]
  · simp only [matInv]
    rw [Matrix.mul_smul, Matrix.mul_adjugate, smul_smul, inv_mul_cancel₀ hdet, one_smul]

/-- Witness for claim C3 at a concrete configuration whose lower triangle
has nonzero determinant. -/
theorem spec_C3_witness :
    (tril cfgC3.mat).det ≠ 0
    ∧ matInv (tril cfgC3.mat) * tril cfgC3.mat = 1
    ∧ tril cfgC3.mat * matInv (tril cfgC3.mat) = 1 := by
  have hdet1 : (tril cfgC3.mat).det = tril cfgC3.mat 0 0 := Matrix.det_fin_one _
  have hdet : (tril cfgC3.mat).det ≠ 0 := by
    rw [hdet1]
    decide
  have h := (spec_C3 1 1 cfgC3 0 fieldC3 fieldC3).2.2.2.2.2.2.2.2 hdet
  exact ⟨hdet, h.1, h.2⟩

/-- Claim C4: res_scale is the squared training resolution over the squared
configured resolution, and both solve and the evaluation loop multiply the
raw model output by res_scale / scaling_factor to produce the reported
potential or output. -/
theorem spec_C4 :
    ∀ (nny nnx : ℕ) (cfg : EngineCfg nny nnx) (interp : ResizeFn) (model : ModelFn)
      (rhs : PField nny nnx) (h w : ℕ) (model2 : PField h w → PField h w)
      (data : PField h w) (rs sf : ℚ),
      res_scale cfg = (cfg.nnx_nn : ℚ) ^ 2 / (nnx : ℚ) ^ 2
      ∧ (∀ (i : Fin (networkStage cfg interp model rhs).1.ny)
           (j : Fin (networkStage cfg interp model rhs).1.nx),
           (networkStage cfg interp model rhs).1.val i j
             = res_scale cfg / cfg.scaling_factor
                 * (rawNetOutput cfg interp model rhs).val i j)
      ∧ (∀ (i : Fin h) (j : Fin w),
           evaluateOutput rs sf model2 data i j = rs / sf * model2 data i j) := by
  intro nny nnx cfg interp model rhs h w model2 data rs sf
  exact ⟨rfl, fun i j => rfl, fun i j => rfl⟩

/-- Claim C5: whenever a diagonal entry of the system matrix is zero, the
Jacobi setup defines the corresponding entries of Pinv as zero instead of an
undefined reciprocal, and the precomputed operators and the sweep expression
remain totally defined: the whole Pinv row is zero and the sweep output at
that index evaluates to zero. -/
theorem spec_C5 :
    ∀ (n : ℕ) (M : Matrix (Fin n) (Fin n) ℚ) (i : Fin n), M i i = 0 →
      (jacobiSetup M).1 i i = 0
      ∧ (∀ j, (jacobiSetup M).1 i j = 0)
      ∧ (∀ pot rhs : Fin n → ℚ,
          (jacobiSetup M).2.mulVec pot i - (jacobiSetup M).1.mulVec rhs i = 0) := by
  intro n M i h
  have hrow : ∀ j, (jacobiSetup M).1 i j = 0 := by
    intro j
    show diagRecip M i j = 0
    by_cases hij : i = j
    · subst hij
      simp [diagRecip, Matrix.diagonal_apply, h]
    · simp [diagRecip, Matrix.diagonal_apply, hij]
  have hmul : ∀ j, (jacobiSetup M).2 i j = 0 := by
    intro j
    show (diagRecip M * (diagOf M - M)) i j = 0
    rw [Matrix.mul_apply]
    apply Finset.sum_eq_zero
    intro k _
    rw [show diagRecip M i k = 0 from hrow k, zero_mul]
  have h2 : ∀ v : Fin n → ℚ, (jacobiSetup M).2.mulVec v i = 0 := by
    intro v
    simp only [Matrix.mulVec, Matrix.dotProduct]
    apply Finset.sum_eq_zero
    intro k _
    rw [show (jacobiSetup M).2 i k = 0 from hmul k, zero_mul]
  have h1 : ∀ v : Fin n → ℚ, (jacobiSetup M).1.mulVec v i = 0 := by
    intro v
    simp only [Matrix.mulVec, Matrix.dotProduct]
    apply Finset.sum_eq_zero
    intro k _
    rw [show (jacobiSetup M).1 i k = 0 from hrow k, zero_mul]
  exact ⟨hrow i, hrow, fun pot rhs => by rw [h2 pot, h1 rhs, sub_zero]⟩

/-- Witness for claim C5 at a concrete matrix with a zero diagonal entry. -/
theorem spec_C5_witness :
    matC5 0 0 = 0 ∧ (jacobiSetup matC5).1 0 0 = 0 :=
  ⟨by decide, (spec_C5 2 matC5 0 (by decide)).1⟩

/-- Claim C6: solve resamples exactly when the model input resolution
differs from the rhs shape, in that case it issues one resample up to the
model input resolution and one back to the rhs shape with the same kind and
align_corners True, and the network-stage potential always has the shape of
the input rhs field. -/
theorem spec_C6 :
    ∀ (nny nnx : ℕ) (cfg : EngineCfg nny nnx) (interp : ResizeFn) (model : ModelFn)
      (rhs : PField nny nnx),
      ((networkStage cfg interp model rhs).1.ny = nny
        ∧ (networkStage cfg interp model rhs).1.nx = nnx)
      ∧ ((networkStage cfg interp model rhs).2 ≠ [] ↔ cfg.input_res ≠ (nny, nnx))
      ∧ (cfg.input_res ≠ (nny, nnx) →
          (networkStage cfg interp model rhs).2
            = [{ kind := cfg.interp_kind, align_corners := true, target := cfg.input_res },
               { kind := cfg.interp_kind, align_corners := true, target := (nny, nnx) }])
      ∧ (cfg.input_res = (nny, nnx) → (networkStage cfg interp model rhs).2 = []) := by
  intro nny nnx cfg interp model rhs
  by_cases h : cfg.input_res = (nny, nnx) <;>
    simp [networkStage, rawNetOutput, networkCalls, interpolateD, h]

/-- Witness for claim C6 at a concrete configuration whose model input
resolution differs from the grid shape. -/
theorem spec_C6_witness :
    cfgC6.input_res ≠ (2, 2)
    ∧ (networkStage cfgC6 interpEx modelEx fieldC6).2
        = [{ kind := "bilinear", align_corners := true, target := (4, 4) },
           { kind := "bilinear", align_corners := true, target := (2, 2) }] :=
  ⟨by decide, (spec_C6 2 2 cfgC6 interpEx modelEx fieldC6).2.2.1 (by decide)⟩

/-- Claim C9: when refinement is configured, the rhs field the caller
observes after solve is the input field with its boundary entries
overwritten by the hardcoded all-sides Dirichlet zeros and its interior
entries unchanged; the sweeps then read this mutated field. -/
theorem spec_C9 :
    ∀ (nny nnx : ℕ) (cfg : EngineCfg nny nnx) (m : RefineMethod) (its : ℕ)
      (interp : ResizeFn) (model : ModelFn) (rhs : PField nny nnx),
      (solve (initEngine { cfg with refine := some (m, its) }) interp model rhs).2.1
          = impose_dirichlet rhs (zeroBC nny nnx)
      ∧ (∀ (i : Fin nny) (j : Fin nnx),
          ((j : ℕ) = 0 ∨ (j : ℕ) = nnx - 1 ∨ (i : ℕ) = 0 ∨ (i : ℕ) = nny - 1) →
          (solve (initEngine { cfg with refine := some (m, its) }) interp model rhs).2.1 i j
            = 0)
      ∧ (∀ (i : Fin nny) (j : Fin nnx),
          (j : ℕ) ≠ 0 → (j : ℕ) ≠ nnx - 1 → (i : ℕ) ≠ 0 → (i : ℕ) ≠ nny - 1 →
          (solve (initEngine { cfg with refine := some (m, its) }) interp model rhs).2.1 i j
            = rhs i j) := by
  intro nny nnx cfg m its interp model rhs
  have hmain :
      (solve (initEngine { cfg with refine := some (m, its) }) interp model rhs).2.1
        = impose_dirichlet rhs (zeroBC nny nnx) := by
    cases m <;> rfl
  refine ⟨hmain, ?_, ?_⟩
  · intro i j hb
    rw [hmain]
    simp only [impose_dirichlet, zeroBC]
    by_cases w1 : (j : ℕ) = 0
    · rw [if_pos w1]
    · rw [if_neg w1]
      by_cases w2 : (j : ℕ) = nnx - 1
      · rw [if_pos w2]
      · rw [if_neg w2]
        by_cases w3 : (i : ℕ) = 0
        · rw [if_pos w3]
        · rw [if_neg w3]
          by_cases w4 : (i : ℕ) = nny - 1
          · rw [if_pos w4]
          · exfalso
            rcases hb with hx | hx | hx | hx
            exacts [w1 hx, w2 hx, w3 hx, w4 hx]
  · intro i j h1 h2 h3 h4
    rw [hmain]
    simp only [impose_dirichlet]
    rw [if_neg h1, if_neg h2, if_neg h3, if_neg h4]

/-- Witness for claim C9 at a concrete 3 by 3 case: the corner entry of the
caller-visible rhs is zeroed and the center entry is unchanged. -/
theorem spec_C9_witness :
    ((0 : ℕ) = 0 ∨ (0 : ℕ) = 3 - 1 ∨ (0 : ℕ) = 0 ∨ (0 : ℕ) = 3 - 1)
    ∧ (solve (initEngine { cfgC9 with refine := some (RefineMethod.gauss_seidel, 2) })
        interpEx modelEx rhsC9).2.1 0 0 = 0
    ∧ (solve (initEngine { cfgC9 with refine := some (RefineMethod.gauss_seidel, 2) })
        interpEx modelEx rhsC9).2.1 1 1 = rhsC9 1 1 := by
  refine ⟨Or.inl rfl, ?_, ?_⟩
  · exact (spec_C9 3 3 cfgC9 RefineMethod.gauss_seidel 2 interpEx modelEx rhsC9).2.1 0 0
      (Or.inl rfl)
  · exact (spec_C9 3 3 cfgC9 RefineMethod.gauss_seidel 2 interpEx modelEx rhsC9).2.2 1 1
      (by decide) (by decide) (by decide) (by decide)

end PoissonNet
